import Mathlib

/-! # Verification of the CanvasEditor component of Ai-Render-Generator

Shallow embedding of the scene model and pointer-event handlers of the
`CanvasEditor` React component, together with a rasterisation model of the
2D-canvas drawing primitives it uses (`fillRect`, `strokeRect`, `drawImage`,
polyline/arc strokes).  Pixel coordinates, sizes and pointer deltas are
modelled as rationals; colors as CSS color strings; an image is abstracted
by its pixel-content function.  React `useState` cells become fields of an
`EditorState` record and each event handler becomes a state-transition
function.
-/

set_option autoImplicit false

namespace AiRender

/-- A 2D canvas point, as produced by `getMousePos`. -/
structure Point where
  x : ℚ
  y : ℚ
deriving DecidableEq

/-- The toolbar tools (`type Tool`). -/
inductive Tool where
  | move | pencil | eraser | line | rectangle | circle
deriving DecidableEq

/-- The interaction mode (`type Action`). -/
inductive Action where
  | none | drawing | dragging | resizing
deriving DecidableEq

/-- The four corner resize handles (`type ResizeHandle`). -/
inductive ResizeHandle where
  | tl | tr | bl | br
deriving DecidableEq

/-- `interface PlacedImage`.  The `HTMLImageElement` is abstracted by its
pixel content (a color for every point). -/
structure PlacedImage where
  id : String
  content : Point → String
  x : ℚ
  y : ℚ
  width : ℚ
  height : ℚ

/-- `interface CanvasElement`: one committed or in-progress drawn element. -/
structure CanvasElement where
  id : String
  tool : Tool
  points : List Point
  color : String
  width : ℚ
deriving DecidableEq

/-- The React state of the `CanvasEditor` component: one field per
`useState` cell. -/
structure EditorState where
  placedImages : List PlacedImage
  elements : List CanvasElement
  activeTool : Tool
  action : Action
  selectedImageIndex : Option Nat
  selectedElement : Option CanvasElement
  resizeHandle : Option ResizeHandle
  strokeColor : String
  strokeWidth : ℚ
  mousePosition : Option Point
  backgroundColor : String
  backgroundImage : Option (Point → String)

/-- The initial values of all `useState` cells. -/
def initialState : EditorState :=
  { placedImages := []
    elements := []
    activeTool := .move
    action := .none
    selectedImageIndex := none
    selectedElement := none
    resizeHandle := none
    strokeColor := "#000000"
    strokeWidth := 5
    mousePosition := none
    backgroundColor := "#FFFFFF"
    backgroundImage := none }

/-- The canvas element width attribute. -/
def canvasW : ℚ := 800

/-- The canvas element height attribute. -/
def canvasH : ℚ := 600

/-- `isDrawingTool`: membership of the tool in the drawing-tool array. -/
def isDrawingTool (t : Tool) : Prop :=
  t = .pencil ∨ t = .line ∨ t = .rectangle ∨ t = .circle ∨ t = .eraser

instance (t : Tool) : Decidable (isDrawingTool t) := by
  unfold isDrawingTool; infer_instance

/-- `getHandleAtPosition`: first handle (in `tl, tr, bl, br` order) whose
10px box centered on the corner contains the pointer, else `none`. -/
def getHandleAtPosition (x y : ℚ) (img : PlacedImage) : Option ResizeHandle :=
  if x ≥ img.x - 5 ∧ x ≤ img.x + 5 ∧ y ≥ img.y - 5 ∧ y ≤ img.y + 5 then
    some .tl
  else if x ≥ img.x + img.width - 5 ∧ x ≤ img.x + img.width + 5 ∧
          y ≥ img.y - 5 ∧ y ≤ img.y + 5 then
    some .tr
  else if x ≥ img.x - 5 ∧ x ≤ img.x + 5 ∧
          y ≥ img.y + img.height - 5 ∧ y ≤ img.y + img.height + 5 then
    some .bl
  else if x ≥ img.x + img.width - 5 ∧ x ≤ img.x + img.width + 5 ∧
          y ≥ img.y + img.height - 5 ∧ y ≤ img.y + img.height + 5 then
    some .br
  else
    none

/-- The axis-aligned bounding-box containment predicate used by the
`findIndex` hit test in `handleMouseDown`. -/
def containsPoint (img : PlacedImage) (pos : Point) : Bool :=
  decide (pos.x ≥ img.x ∧ pos.x ≤ img.x + img.width ∧
          pos.y ≥ img.y ∧ pos.y ≤ img.y + img.height)

/-- JavaScript `Array.prototype.findIndex` returning the first index whose
element satisfies the predicate (as an `Option Nat`). -/
def findIndex {α : Type} (P : α → Bool) : List α → Option Nat
  | [] => none
  | a :: l => if P a then some 0 else (findIndex P l).map (· + 1)

/-- Replace the element at one index by applying `f` (out-of-range indices
leave the list unchanged; they are unreachable in the component). -/
def modifyAt {α : Type} : List α → Nat → (α → α) → List α
  | [], _, _ => []
  | a :: l, 0, f => f a :: l
  | a :: l, i + 1, f => a :: modifyAt l i f

/-- The resize-handle hit test performed at the start of `handleMouseDown`
when an image is selected. -/
def handleHitAt (s : EditorState) (pos : Point) : Option ResizeHandle :=
  match s.selectedImageIndex with
  | some i =>
      match s.placedImages[i]? with
      | some img => getHandleAtPosition pos.x pos.y img
      | none => none
  | none => none

/-- `handleMouseDown`.  `freshId` stands for the `crypto.randomUUID()`
value of a newly created element. -/
def handleMouseDown (s : EditorState) (pos : Point) (freshId : String) :
    EditorState :=
  if s.activeTool = .move then
    match handleHitAt s pos with
    | some h => { s with action := .resizing, resizeHandle := some h }
    | none =>
        match findIndex (containsPoint · pos) s.placedImages with
        | some i => { s with action := .dragging, selectedImageIndex := some i }
        | none => { s with selectedImageIndex := none }
  else
    { s with
      action := .drawing
      selectedElement := some
        { id := freshId
          tool := s.activeTool
          points := [pos]
          color := s.strokeColor
          width := s.strokeWidth } }

/-- The dragging branch of `handleMouseMove`: translate by the incremental
pointer movement delta. -/
def dragStep (mv : Point) (img : PlacedImage) : PlacedImage :=
  { img with x := img.x + mv.x, y := img.y + mv.y }

/-- The per-handle rectangle recomputation of the resizing branch of
`handleMouseMove` (the `switch (resizeHandle)` block). -/
def resizeCandidate (h : ResizeHandle) (pos : Point) (img : PlacedImage) :
    PlacedImage :=
  match h with
  | .tl => { img with
      width := img.x + img.width - pos.x
      height := img.y + img.height - pos.y
      x := pos.x
      y := pos.y }
  | .tr => { img with
      width := pos.x - img.x
      height := img.y + img.height - pos.y
      y := pos.y }
  | .bl => { img with
      width := img.x + img.width - pos.x
      height := pos.y - img.y
      x := pos.x }
  | .br => { img with
      width := pos.x - img.x
      height := pos.y - img.y }

/-- The guarded commit of the resizing branch: the recomputed rectangle is
stored only if `width > 10 && height > 10`, otherwise the previous image
is kept. -/
def resizeApply (h : ResizeHandle) (pos : Point) (img : PlacedImage) :
    PlacedImage :=
  let c := resizeCandidate h pos img
  if 10 < c.width ∧ 10 < c.height then c else img

/-- The drawing branch of `handleMouseMove`: pencil and eraser append the
current point; line, rectangle and circle replace the second point while
keeping the first. -/
def extendElement (el : CanvasElement) (pos : Point) : CanvasElement :=
  if el.tool = .pencil ∨ el.tool = .eraser then
    { el with points := el.points ++ [pos] }
  else
    { el with points := [el.points.headD pos, pos] }

/-- `handleMouseMove`: records the mouse position, then acts according to
the current action exactly as the `if/else if` chain of the source (the
purely cosmetic `canvas.style.cursor` assignments are not state). -/
def handleMouseMove (s : EditorState) (pos mv : Point) : EditorState :=
  match s.action, s.selectedImageIndex, s.resizeHandle, s.selectedElement with
  | .dragging, some i, _, _ =>
      { s with
        mousePosition := some pos
        placedImages := modifyAt s.placedImages i (dragStep mv) }
  | .resizing, some i, some h, _ =>
      { s with
        mousePosition := some pos
        placedImages := modifyAt s.placedImages i (resizeApply h pos) }
  | .drawing, _, _, some el =>
      { s with
        mousePosition := some pos
        selectedElement := some (extendElement el pos) }
  | _, _, _, _ => { s with mousePosition := some pos }

/-- `handleMouseUp`: commit an in-progress draw, then return to the idle
action with no selected element and no resize handle. -/
def handleMouseUp (s : EditorState) : EditorState :=
  let s1 :=
    match s.action, s.selectedElement with
    | .drawing, some el => { s with elements := s.elements ++ [el] }
    | _, _ => s
  { s1 with action := .none, selectedElement := none, resizeHandle := none }

/-- The canvas `onMouseLeave` handler: `handleMouseUp()` followed by
`setMousePosition(null)`. -/
def handleMouseLeave (s : EditorState) : EditorState :=
  { handleMouseUp s with mousePosition := none }

/-- `addImageToCanvas` (the `onload` continuation): place the uploaded
image at `(50, 50)` with width `MAX_WIDTH = 150` and height scaled by
`MAX_WIDTH / naturalW`.  `naturalW` and `naturalH` are the intrinsic
`img.width` and `img.height` of the loaded `HTMLImageElement`. -/
def addImageToCanvas (s : EditorState) (id : String)
    (content : Point → String) (naturalW naturalH : ℚ) : EditorState :=
  { s with
    placedImages := s.placedImages ++
      [{ id := id
         content := content
         x := 50
         y := 50
         width := 150
         height := naturalH * (150 / naturalW) }] }

/-- `handleBackgroundColorChange`: sets the color and clears any
background image. -/
def handleBackgroundColorChange (s : EditorState) (c : String) :
    EditorState :=
  { s with backgroundColor := c, backgroundImage := none }

/-- `handleBackgroundImageUpload` (the `onload` continuation): sets the
background image; the stored background color is not touched. -/
def handleBackgroundImageUpload (s : EditorState)
    (img : Point → String) : EditorState :=
  { s with backgroundImage := some img }

/-- A session of consecutive `handleMouseMove` events, each given as a
pair of absolute position and incremental movement delta. -/
def mouseMoveSession (s : EditorState) (evs : List (Point × Point)) :
    EditorState :=
  evs.foldl (fun st ev => handleMouseMove st ev.1 ev.2) s

/-! ## Rasterisation model of the 2D-canvas drawing primitives

Each primitive call performed by the repaint effect becomes one `DrawOp`.
A point is rendered by the last operation in the list that covers it
(all colors used by the component are fully covering, so painter-order
last-writer-wins is exact). -/

/-- One drawing primitive call on a 2D canvas context. -/
inductive DrawOp where
  /-- `ctx.fillRect(x, y, w, h)` with fill color `color`. -/
  | fillRectOp (x y w h : ℚ) (color : String)
  /-- `ctx.strokeRect(x, y, w, h)` with line width `lw` (default miter
  joins) and stroke color `color`. -/
  | strokeRectOp (x y w h lw : ℚ) (color : String)
  /-- `ctx.drawImage(image, x, y, w, h)` where `content` gives the color
  shown at each canvas point of the destination rectangle. -/
  | imageOp (content : Point → String) (x y w h : ℚ)
  /-- stroke of a polyline path through `pts` with round caps and joins,
  line width `lw` and color `color`. -/
  | strokePolyOp (pts : List Point) (lw : ℚ) (color : String)
  /-- stroke of a full circle of squared radius `r2` centered at `c` with
  line width `lw` and color `color` (`ctx.arc` + `ctx.stroke`). -/
  | arcStrokeOp (c : Point) (r2 lw : ℚ) (color : String)

/-- Squared euclidean distance between two points. -/
def distSq (p q : Point) : ℚ :=
  (p.x - q.x) * (p.x - q.x) + (p.y - q.y) * (p.y - q.y)

/-- Coverage of stroking the single segment `a`–`b` with round caps and
squared half line width `r2`: the capsule around the segment, stated
division-free.  `p` is covered iff it is within the radius of an endpoint,
or the segment is non-degenerate, the orthogonal projection of `p` falls
between the endpoints, and the perpendicular distance is within the
radius (the last condition squared via the cross product). -/
def segCovers (p a b : Point) (r2 : ℚ) : Prop :=
  distSq p a ≤ r2 ∨ distSq p b ≤ r2 ∨
    (0 < distSq b a ∧
     0 ≤ (p.x - a.x) * (b.x - a.x) + (p.y - a.y) * (b.y - a.y) ∧
     (p.x - a.x) * (b.x - a.x) + (p.y - a.y) * (b.y - a.y) ≤ distSq b a ∧
     ((p.x - a.x) * (b.y - a.y) - (p.y - a.y) * (b.x - a.x)) *
         ((p.x - a.x) * (b.y - a.y) - (p.y - a.y) * (b.x - a.x)) ≤
       r2 * distSq b a)

instance (p a b : Point) (r2 : ℚ) : Decidable (segCovers p a b r2) := by
  unfold segCovers; infer_instance

/-- Coverage of a stroked full circle of squared radius `r2`: a point at
squared distance `d2` from the center is covered iff the absolute
difference between distance and radius is at most half the line width;
squaring twice turns this into the division-free condition below
(with `h2` the squared half line width:
`d2 + r2 - h2 ≤ 2 * sqrt (d2 * r2)`). -/
def arcCovers (c : Point) (r2 lw : ℚ) (p : Point) : Prop :=
  distSq p c + r2 - (lw / 2) * (lw / 2) ≤ 0 ∨
    (distSq p c + r2 - (lw / 2) * (lw / 2)) *
        (distSq p c + r2 - (lw / 2) * (lw / 2)) ≤
      4 * (distSq p c * r2)

instance (c : Point) (r2 lw : ℚ) (p : Point) : Decidable (arcCovers c r2 lw p) := by
  unfold arcCovers; infer_instance

/-- Coverage of `fillRect` (all uses in the component have non-negative
width and height). -/
def fillRectCovers (x y w h : ℚ) (p : Point) : Prop :=
  x ≤ p.x ∧ p.x ≤ x + w ∧ y ≤ p.y ∧ p.y ≤ y + h

instance (x y w h : ℚ) (p : Point) : Decidable (fillRectCovers x y w h p) := by
  unfold fillRectCovers; infer_instance

/-- Coverage of `strokeRect` with the default miter joins: the closed
frame of half line width `lw / 2` around the rectangle border — the
outer expanded box minus the open inner shrunken box. -/
def strokeRectCovers (x y w h lw : ℚ) (p : Point) : Prop :=
  (x - lw / 2 ≤ p.x ∧ p.x ≤ x + w + lw / 2 ∧
   y - lw / 2 ≤ p.y ∧ p.y ≤ y + h + lw / 2) ∧
  ¬(x + lw / 2 < p.x ∧ p.x < x + w - lw / 2 ∧
    y + lw / 2 < p.y ∧ p.y < y + h - lw / 2)

instance (x y w h lw : ℚ) (p : Point) : Decidable (strokeRectCovers x y w h lw p) := by
  unfold strokeRectCovers; infer_instance

/-- The consecutive segments of a path. -/
def segPairs (pts : List Point) : List (Point × Point) :=
  pts.zip pts.tail

/-- Whether a drawing operation paints the point `p`. -/
def opCovers : DrawOp → Point → Bool
  | .fillRectOp x y w h _, p => decide (fillRectCovers x y w h p)
  | .strokeRectOp x y w h lw _, p => decide (strokeRectCovers x y w h lw p)
  | .imageOp _ x y w h, p => decide (fillRectCovers x y w h p)
  | .strokePolyOp pts lw _, p =>
      (segPairs pts).any fun ab =>
        decide (segCovers p ab.1 ab.2 ((lw / 2) * (lw / 2)))
  | .arcStrokeOp c r2 lw _, p => decide (arcCovers c r2 lw p)

/-- The color a drawing operation paints at the point `p` (meaningful
only where the operation covers `p`). -/
def opColorAt : DrawOp → Point → String
  | .fillRectOp _ _ _ _ c, _ => c
  | .strokeRectOp _ _ _ _ _ c, _ => c
  | .imageOp f _ _ _ _, p => f p
  | .strokePolyOp _ _ c, _ => c
  | .arcStrokeOp _ _ _ c, _ => c

/-- Painter-order rendering: the color of the last operation covering
`p`, or `none` where the canvas stays transparent. -/
def renderAt (ops : List DrawOp) (p : Point) : Option String :=
  ops.foldl (fun acc op => if opCovers op p then some (opColorAt op p) else acc)
    none

/-- The path points traced by `ctx.rect(x, y, w, h)`:
`(x,y) → (x+w,y) → (x+w,y+h) → (x,y+h) → close`. -/
def rectPathPts (x y w h : ℚ) : List Point :=
  [⟨x, y⟩, ⟨x + w, y⟩, ⟨x + w, y + h⟩, ⟨x, y + h⟩, ⟨x, y⟩]

/-- `drawElement` from the repaint effect, as the drawing operation it
performs: eraser strokes use the current background color and a fixed
line width of 20; the geometry branches are guarded by the same
point-count conditions as the source (an element whose guard fails
strokes an empty path, i.e. performs no operation). -/
def drawElement (bg : String) (el : CanvasElement) : Option DrawOp :=
  let color := if el.tool = .eraser then bg else el.color
  let lw := if el.tool = .eraser then (20 : ℚ) else el.width
  match el.tool, el.points with
  | .pencil, p0 :: _ => some (.strokePolyOp (p0 :: el.points) lw color)
  | .eraser, p0 :: _ => some (.strokePolyOp (p0 :: el.points) lw color)
  | .line, p0 :: p1 :: _ => some (.strokePolyOp [p0, p1] lw color)
  | .rectangle, p0 :: p1 :: _ =>
      some (.strokePolyOp (rectPathPts p0.x p0.y (p1.x - p0.x) (p1.y - p0.y))
        lw color)
  | .circle, p0 :: p1 :: _ => some (.arcStrokeOp p0 (distSq p1 p0) lw color)
  | _, _ => none

/-- The background paint of the repaint effect (and of the export): the
background image stretched over the whole canvas if present, else a
solid fill with the background color. -/
def bgOps (s : EditorState) : List DrawOp :=
  match s.backgroundImage with
  | some f => [.imageOp f 0 0 canvasW canvasH]
  | none => [.fillRectOp 0 0 canvasW canvasH s.backgroundColor]

/-- The four corner points of a placed image, in the order the repaint
effect lists its selection handles. -/
def handleCorners (img : PlacedImage) : List Point :=
  [⟨img.x, img.y⟩, ⟨img.x + img.width, img.y⟩,
   ⟨img.x, img.y + img.height⟩, ⟨img.x + img.width, img.y + img.height⟩]

/-- The selection affordances painted over the selected image: the blue
outline, then for each corner a white filled handle box with a black
border (`handleSize = 8`). -/
def selectionOps (img : PlacedImage) : List DrawOp :=
  .strokeRectOp img.x img.y img.width img.height 2 "#007bff" ::
    (handleCorners img).flatMap fun hp =>
      [.fillRectOp (hp.x - 4) (hp.y - 4) 8 8 "#FFFFFF",
       .strokeRectOp (hp.x - 4) (hp.y - 4) 8 8 1 "#000000"]

/-- Painting of the placed images in list order, each followed by its
selection affordances when it is the selected one. -/
def imagesOps (s : EditorState) : List DrawOp :=
  s.placedImages.enum.flatMap fun iimg =>
    .imageOp iimg.2.content iimg.2.x iimg.2.y iimg.2.width iimg.2.height ::
      (if s.selectedImageIndex = some iimg.1 then selectionOps iimg.2 else [])

/-- The live tool-size preview circle: painted when the mouse is over the
canvas, a drawing tool is armed and no action is in progress. -/
def previewOps (s : EditorState) : List DrawOp :=
  match s.mousePosition with
  | some mp =>
      if isDrawingTool s.activeTool ∧ s.action = .none then
        [.arcStrokeOp mp
          (((if s.activeTool = .eraser then (20 : ℚ) else s.strokeWidth) / 2) *
            ((if s.activeTool = .eraser then (20 : ℚ) else s.strokeWidth) / 2))
          1
          (if s.activeTool = .eraser then "#000000" else s.strokeColor)]
      else []
  | none => []

/-- The full repaint performed by the `useLayoutEffect`: background, then
committed elements, then the in-progress element, then placed images with
selection affordances, then the tool-size preview. -/
def repaintOps (s : EditorState) : List DrawOp :=
  bgOps s ++
    s.elements.filterMap (drawElement s.backgroundColor) ++
    (s.selectedElement.bind (drawElement s.backgroundColor)).toList ++
    imagesOps s ++
    previewOps s

/-- The operations composited by `getCanvasAsBase64` onto its temporary
canvas: the background, then `ctx.drawImage(canvas, 0, 0)` — the live
canvas bitmap, which is exactly the replay of the last repaint. -/
def exportOps (s : EditorState) : List DrawOp :=
  bgOps s ++ repaintOps s

/-- `getCanvasAsBase64`: `null` when the canvas ref is unmounted,
otherwise the JPEG encoding of the composite; the encoding is modelled by
the drawing-operation list that determines every pixel of the frame. -/
def getCanvasAsBase64 (s : EditorState) (mounted : Bool) :
    Option (List DrawOp) :=
  if mounted then some (exportOps s) else none

/-- Membership of a point in the 800 × 600 canvas. -/
def inCanvas (p : Point) : Prop :=
  0 ≤ p.x ∧ p.x ≤ canvasW ∧ 0 ≤ p.y ∧ p.y ≤ canvasH

/-- The background color shown at a point: the background image content
if an image is set, else the solid background color. -/
def bgColorAt (s : EditorState) (p : Point) : String :=
  match s.backgroundImage with
  | some f => f p
  | none => s.backgroundColor

/-! ## Concrete scenes used as test inputs -/

/-- A scene with one placed image at `(50, 50)` of size `150 × 100`,
currently selected (so the repaint paints its outline and corner
handles), with no hover preview and no in-progress element. -/
def selectionScene : EditorState :=
  { initialState with
    placedImages := [⟨"img", fun _ => "#888888", 50, 50, 150, 100⟩]
    selectedImageIndex := some 0 }

/-- The same scene with the selection cleared. -/
def clearedScene : EditorState :=
  { selectionScene with selectedImageIndex := none }

/-- A scene with two overlapping placed images: the first-added covers
`[50, 200] × [50, 150]`, the later-added (drawn on top) covers
`[90, 240] × [90, 190]`; both contain the point `(100, 100)`. -/
def overlapScene : EditorState :=
  { initialState with
    placedImages := [⟨"bottom", fun _ => "A", 50, 50, 150, 100⟩,
                     ⟨"top", fun _ => "B", 90, 90, 150, 100⟩] }

/-- A scene with the line tool armed. -/
def lineToolScene : EditorState :=
  { initialState with activeTool := .line }

/-- A scene in the middle of a bottom-right resize gesture on a placed
image of size `150 × 100`. -/
def resizingScene : EditorState :=
  { initialState with
    placedImages := [⟨"img", fun _ => "#888888", 50, 50, 150, 100⟩]
    selectedImageIndex := some 0
    action := .resizing
    resizeHandle := some .br }

/-- A pencil element with one accumulated point. -/
def sampleElement : CanvasElement := ⟨"el", .pencil, [⟨0, 0⟩], "#000000", 5⟩

/-- A scene in the middle of a pencil draw. -/
def drawingScene : EditorState :=
  { initialState with action := .drawing, selectedElement := some sampleElement }

/-- An eraser element with one accumulated point. -/
def eraserElement : CanvasElement := ⟨"er", .eraser, [⟨1, 1⟩], "#000000", 5⟩

/-- A scene in the middle of an eraser draw. -/
def erasingScene : EditorState :=
  { initialState with action := .drawing, selectedElement := some eraserElement }

/-- A line element holding only its anchor point. -/
def lineElement : CanvasElement := ⟨"ln", .line, [⟨0, 0⟩], "#000000", 5⟩

/-- A scene in the middle of a line draw, before any pointer move. -/
def lineDrawScene : EditorState :=
  { initialState with action := .drawing, selectedElement := some lineElement }

/-- Four segments over which the coverage of a stroked `ctx.rect` call
with corners `s` and `e` decomposes. -/
def rectStrokeCovers (s e : Point) (r2 : ℚ) (p : Point) : Prop :=
  segCovers p s ⟨e.x, s.y⟩ r2 ∨ segCovers p ⟨e.x, s.y⟩ e r2 ∨
    segCovers p e ⟨s.x, e.y⟩ r2 ∨ segCovers p ⟨s.x, e.y⟩ s r2

/-! ## Helper lemmas -/

theorem distSq_comm (p q : Point) : distSq p q = distSq q p := by
  unfold distSq; ring

theorem segCovers_swap {p a b : Point} {r2 : ℚ} (h : segCovers p a b r2) :
    segCovers p b a r2 := by
  unfold segCovers distSq at h ⊢
  obtain h | h | ⟨h1, h2, h3, h4⟩ := h
  · exact Or.inr (Or.inl h)
  · exact Or.inl h
  · exact Or.inr (Or.inr ⟨by nlinarith, by nlinarith, by nlinarith, by nlinarith⟩)

theorem segCovers_comm (p a b : Point) (r2 : ℚ) :
    segCovers p a b r2 ↔ segCovers p b a r2 :=
  ⟨segCovers_swap, segCovers_swap⟩

theorem modifyAt_getElem? {α : Type} (l : List α) (i : Nat) (f : α → α)
    (a : α) (h : l[i]? = some a) : (modifyAt l i f)[i]? = some (f a) := by
  induction l generalizing i with
  | nil => simp at h
  | cons x xs ih =>
    cases i with
    | zero =>
        simp only [List.getElem?_cons_zero, Option.some.injEq] at h
        subst h
        simp [modifyAt]
    | succ n =>
        simp only [List.getElem?_cons_succ] at h
        simpa [modifyAt] using ih n h

theorem modifyAt_length {α : Type} (l : List α) (i : Nat) (f : α → α) :
    (modifyAt l i f).length = l.length := by
  induction l generalizing i with
  | nil => simp [modifyAt]
  | cons x xs ih =>
    cases i with
    | zero => simp [modifyAt]
    | succ n => simp [modifyAt, ih]

theorem findIndex_eq_some {α : Type} (P : α → Bool) (l : List α) (i : Nat)
    (h : findIndex P l = some i) :
    ∃ a, l[i]? = some a ∧ P a = true ∧
      ∀ j b, j < i → l[j]? = some b → P b = false := by
  induction l generalizing i with
  | nil => simp [findIndex] at h
  | cons x xs ih =>
    by_cases hx : P x
    · simp only [findIndex, hx, if_pos, Option.some.injEq] at h
      subst h
      exact ⟨x, by simp, hx, by intro j b hj; omega⟩
    · simp only [findIndex, hx, if_neg, Bool.false_eq_true, if_false] at h
      obtain ⟨i', hi', rfl⟩ := Option.map_eq_some'.mp h
      obtain ⟨a, ha, hPa, hmin⟩ := ih i' hi'
      refine ⟨a, by simpa using ha, hPa, ?_⟩
      intro j b hj hb
      cases j with
      | zero =>
          simp only [List.getElem?_cons_zero, Option.some.injEq] at hb
          subst hb
          simpa using hx
      | succ n =>
          simp only [List.getElem?_cons_succ] at hb
          exact hmin n b (by omega) hb

theorem drawElement_rect_covers (bg col : String) (w : ℚ) (i : String)
    (a b p : Point) :
    ((drawElement bg ⟨i, .rectangle, [a, b], col, w⟩).any
        (opCovers · p)) = true ↔
      rectStrokeCovers a b ((w / 2) * (w / 2)) p := by
  have hx : a.x + (b.x - a.x) = b.x := by ring
  have hy : a.y + (b.y - a.y) = b.y := by ring
  simp [drawElement, Option.any, opCovers, segPairs, rectPathPts,
    rectStrokeCovers, hx, hy, List.zip, List.zipWith, Bool.or_eq_true,
    decide_eq_true_eq]

theorem rectStrokeCovers_swap (s e : Point) (r2 : ℚ) (p : Point) :
    rectStrokeCovers s e r2 p ↔ rectStrokeCovers e s r2 p := by
  unfold rectStrokeCovers
  tauto

theorem rectStrokeCovers_norm (s e : Point) (r2 : ℚ) (p : Point) :
    rectStrokeCovers s e r2 p ↔
      rectStrokeCovers ⟨min s.x e.x, min s.y e.y⟩ ⟨max s.x e.x, max s.y e.y⟩
        r2 p := by
  have hee : (⟨e.x, e.y⟩ : Point) = e := rfl
  have hss : (⟨s.x, s.y⟩ : Point) = s := rfl
  rcases le_total s.x e.x with hx | hx <;> rcases le_total s.y e.y with hy | hy
  · rw [min_eq_left hx, min_eq_left hy, max_eq_right hx, max_eq_right hy,
      hss, hee]
  · rw [min_eq_left hx, min_eq_right hy, max_eq_right hx, max_eq_left hy]
    simp only [rectStrokeCovers, hee, hss]
    constructor
    · rintro (h | h | h | h)
      · exact Or.inr (Or.inr (Or.inl (segCovers_swap h)))
      · exact Or.inr (Or.inl (segCovers_swap h))
      · exact Or.inl (segCovers_swap h)
      · exact Or.inr (Or.inr (Or.inr (segCovers_swap h)))
    · rintro (h | h | h | h)
      · exact Or.inr (Or.inr (Or.inl (segCovers_swap h)))
      · exact Or.inr (Or.inl (segCovers_swap h))
      · exact Or.inl (segCovers_swap h)
      · exact Or.inr (Or.inr (Or.inr (segCovers_swap h)))
  · rw [min_eq_right hx, min_eq_left hy, max_eq_left hx, max_eq_right hy]
    simp only [rectStrokeCovers, hee, hss]
    constructor
    · rintro (h | h | h | h)
      · exact Or.inl (segCovers_swap h)
      · exact Or.inr (Or.inr (Or.inr (segCovers_swap h)))
      · exact Or.inr (Or.inr (Or.inl (segCovers_swap h)))
      · exact Or.inr (Or.inl (segCovers_swap h))
    · rintro (h | h | h | h)
      · exact Or.inl (segCovers_swap h)
      · exact Or.inr (Or.inr (Or.inr (segCovers_swap h)))
      · exact Or.inr (Or.inr (Or.inl (segCovers_swap h)))
      · exact Or.inr (Or.inl (segCovers_swap h))
  · rw [min_eq_right hx, min_eq_right hy, max_eq_left hx, max_eq_left hy,
      hee, hss]
    exact rectStrokeCovers_swap s e r2 p

/-- C8: a rectangle element whose start point is below or to the right of
its end point renders the same axis-aligned box as the element with the
two corner points swapped — the stroked geometry is independent of the
order of the two corners — and it equals the stroked geometry of the
normalized box spanned by the componentwise min and max corners. -/
theorem rectangle_corner_order_independent (bg col : String) (w : ℚ)
    (ia ib : String) (a b p : Point) :
    (((drawElement bg ⟨ia, .rectangle, [a, b], col, w⟩).any
        (opCovers · p)) = true ↔
      ((drawElement bg ⟨ib, .rectangle, [b, a], col, w⟩).any
        (opCovers · p)) = true) ∧
    (((drawElement bg ⟨ia, .rectangle, [a, b], col, w⟩).any
        (opCovers · p)) = true ↔
      ((drawElement bg ⟨ia, .rectangle,
          [⟨min a.x b.x, min a.y b.y⟩, ⟨max a.x b.x, max a.y b.y⟩],
          col, w⟩).any (opCovers · p)) = true) := by
  constructor
  · rw [drawElement_rect_covers, drawElement_rect_covers]
    exact rectStrokeCovers_swap a b ((w / 2) * (w / 2)) p
  · rw [drawElement_rect_covers, drawElement_rect_covers]
    exact rectStrokeCovers_norm a b ((w / 2) * (w / 2)) p

/-- C1 (refuting the claimed pixel-identity): `getCanvasAsBase64`
composites the live canvas into the export, so with an image selected the
black border of its top-left selection handle is exported at pixel
`(46, 46)`, while the identical scene with the selection cleared exports
the white background there — the exported frames differ. -/
theorem export_includes_selection_affordances :
    ((getCanvasAsBase64 selectionScene true).map
        fun ops => renderAt ops ⟨46, 46⟩) = some (some "#000000") ∧
    ((getCanvasAsBase64 clearedScene true).map
        fun ops => renderAt ops ⟨46, 46⟩) = some (some "#FFFFFF") ∧
    ((getCanvasAsBase64 selectionScene true).map
        fun ops => renderAt ops ⟨46, 46⟩) ≠
      ((getCanvasAsBase64 clearedScene true).map
        fun ops => renderAt ops ⟨46, 46⟩) := by
  have h1 : ((getCanvasAsBase64 selectionScene true).map
      fun ops => renderAt ops ⟨46, 46⟩) = some (some "#000000") := by
    with_unfolding_all rfl
  have h2 : ((getCanvasAsBase64 clearedScene true).map
      fun ops => renderAt ops ⟨46, 46⟩) = some (some "#FFFFFF") := by
    with_unfolding_all rfl
  refine ⟨h1, h2, ?_⟩
  rw [h1, h2]
  simp

/-- C3 (counterexample): in a scene with two overlapping placed images
that both contain the pointer, pointer-down with the move tool selects
the first-added, bottom-most image (index 0), not the later-added
topmost one (index 1). -/
theorem hit_test_selects_bottom_counterexample :
    (handleMouseDown overlapScene ⟨100, 100⟩ "fresh").selectedImageIndex =
      some 0 ∧
    (overlapScene.placedImages.map (containsPoint · ⟨100, 100⟩)) =
      [true, true] ∧
    (handleMouseDown overlapScene ⟨100, 100⟩ "fresh").selectedImageIndex ≠
      some 1 := by
  refine ⟨by with_unfolding_all rfl, by with_unfolding_all rfl, ?_⟩
  have h : (handleMouseDown overlapScene ⟨100, 100⟩ "fresh").selectedImageIndex =
      some 0 := by with_unfolding_all rfl
  rw [h]
  simp

/-- C3 (amended): on pointer-down with the move tool, when no resize
handle is hit, hit-testing scans the placed images from the start of the
list — bottom-most first in paint order — so the image selected and
dragged is the first-added one whose bounding box contains the pointer,
and every image listed before it does not contain the pointer. -/
theorem hit_test_first_added_wins (s : EditorState) (pos : Point)
    (freshId : String) (i : Nat)
    (hmove : s.activeTool = .move)
    (hnohandle : handleHitAt s pos = none)
    (hfind : findIndex (containsPoint · pos) s.placedImages = some i) :
    (handleMouseDown s pos freshId).selectedImageIndex = some i ∧
    (handleMouseDown s pos freshId).action = .dragging ∧
    ∃ img, s.placedImages[i]? = some img ∧ containsPoint img pos = true ∧
      ∀ j img', j < i → s.placedImages[j]? = some img' →
        containsPoint img' pos = false := by
  obtain ⟨a, ha, hPa, hmin⟩ := findIndex_eq_some _ _ _ hfind
  refine ⟨?_, ?_, a, ha, hPa, fun j img' hj hg => hmin j img' hj hg⟩
  · simp [handleMouseDown, hmove, hnohandle, hfind]
  · simp [handleMouseDown, hmove, hnohandle, hfind]

theorem hit_test_first_added_wins_witness :
    (handleMouseDown overlapScene ⟨100, 100⟩ "w").selectedImageIndex =
      some 0 ∧
    (handleMouseDown overlapScene ⟨100, 100⟩ "w").action = .dragging := by
  have h := hit_test_first_added_wins overlapScene ⟨100, 100⟩ "w" 0
    rfl (by with_unfolding_all rfl) (by with_unfolding_all rfl)
  exact ⟨h.1, h.2.1⟩

/-- C4: ending an in-progress draw via pointer-leave behaves exactly like
pointer-up: the accumulated element is appended exactly once to the
committed collection, the action returns to idle with no uncommitted
element left behind, and the resulting elements, action, selection and
placed images agree with those produced by pointer-up. -/
theorem pointer_leave_commits_like_pointer_up (s : EditorState)
    (el : CanvasElement) (hact : s.action = .drawing)
    (hsel : s.selectedElement = some el) :
    (handleMouseLeave s).elements = s.elements ++ [el] ∧
    (handleMouseLeave s).action = .none ∧
    (handleMouseLeave s).selectedElement = none ∧
    (handleMouseLeave s).elements.count el = s.elements.count el + 1 ∧
    (handleMouseLeave s).elements = (handleMouseUp s).elements ∧
    (handleMouseLeave s).action = (handleMouseUp s).action ∧
    (handleMouseLeave s).selectedElement = (handleMouseUp s).selectedElement ∧
    (handleMouseLeave s).placedImages = (handleMouseUp s).placedImages := by
  simp [handleMouseLeave, handleMouseUp, hact, hsel]

theorem pointer_leave_commits_like_pointer_up_witness :
    (handleMouseLeave drawingScene).elements = [sampleElement] ∧
    (handleMouseLeave drawingScene).action = .none ∧
    (handleMouseLeave drawingScene).selectedElement = none := by
  have h := pointer_leave_commits_like_pointer_up drawingScene sampleElement
    rfl rfl
  exact ⟨by simpa using h.1, h.2.1, h.2.2.1⟩

/-- C5: committing an eraser stroke never removes a previously committed
element — the element count grows by exactly one and every earlier
element is retained — and the eraser element renders as a polyline stroke
of width 20 in the current background color (same-color overpainting),
not as pixel removal. -/
theorem eraser_overpaints_not_deletes (s : EditorState) (el : CanvasElement)
    (p0 : Point) (rest : List Point)
    (hact : s.action = .drawing) (hsel : s.selectedElement = some el)
    (htool : el.tool = .eraser) (hpts : el.points = p0 :: rest) :
    (handleMouseUp s).elements.length = s.elements.length + 1 ∧
    (∀ e, e ∈ s.elements → e ∈ (handleMouseUp s).elements) ∧
    drawElement s.backgroundColor el =
      some (.strokePolyOp (p0 :: el.points) 20 s.backgroundColor) := by
  refine ⟨?_, ?_, ?_⟩
  · simp [handleMouseUp, hact, hsel]
  · intro e he
    simp only [handleMouseUp, hact, hsel]
    simp [he]
  · simp [drawElement, htool, hpts]

theorem eraser_overpaints_not_deletes_witness :
    (handleMouseUp erasingScene).elements.length =
      erasingScene.elements.length + 1 ∧
    drawElement erasingScene.backgroundColor eraserElement =
      some (.strokePolyOp [⟨1, 1⟩, ⟨1, 1⟩] 20 "#FFFFFF") := by
  have h := eraser_overpaints_not_deletes erasingScene eraserElement
    ⟨1, 1⟩ [] rfl rfl rfl rfl
  exact ⟨h.1, h.2.2⟩

/-- C6 (counterexample): uploading a background image does not clear the
stored solid-color choice: starting from a state whose background color
is `#FF0000`, after the upload the image is set but the color is still
`#FF0000`, not reset to the white default. -/
theorem background_upload_keeps_color_counterexample :
    (handleBackgroundImageUpload
        { initialState with backgroundColor := "#FF0000" }
        (fun _ => "#00FF00")).backgroundColor = "#FF0000" ∧
    (handleBackgroundImageUpload
        { initialState with backgroundColor := "#FF0000" }
        (fun _ => "#00FF00")).backgroundImage.isSome = true ∧
    ("#FF0000" : String) ≠ "#FFFFFF" := by
  refine ⟨rfl, rfl, by simp⟩

/-- C6 (amended): setting the background color clears any background
image; setting a background image leaves the stored solid color
unchanged (it is overridden rather than cleared), while the painted
background remains exclusive at all times — the repaint and the export
paint the image whenever one is set and the solid fill otherwise — with
white fill as the initial default. -/
theorem background_exclusive_render :
    (∀ (s : EditorState) (c : String),
      (handleBackgroundColorChange s c).backgroundColor = c ∧
      (handleBackgroundColorChange s c).backgroundImage = none) ∧
    (∀ (s : EditorState) (f : Point → String),
      (handleBackgroundImageUpload s f).backgroundImage = some f ∧
      (handleBackgroundImageUpload s f).backgroundColor =
        s.backgroundColor) ∧
    (∀ s : EditorState,
      (s.backgroundImage = none ∧
        bgOps s = [.fillRectOp 0 0 canvasW canvasH s.backgroundColor]) ∨
      (∃ f, s.backgroundImage = some f ∧
        bgOps s = [.imageOp f 0 0 canvasW canvasH])) ∧
    initialState.backgroundColor = "#FFFFFF" ∧
    initialState.backgroundImage = none := by
  refine ⟨fun s c => ⟨rfl, rfl⟩, fun s f => ⟨rfl, rfl⟩, fun s => ?_, rfl, rfl⟩
  cases h : s.backgroundImage with
  | none => exact Or.inl ⟨rfl, by simp [bgOps, h]⟩
  | some f => exact Or.inr ⟨f, rfl, by simp [bgOps, h]⟩

/-- C7 (counterexample): pointer-down with the line tool followed
immediately by pointer-up commits a line element whose points sequence
holds exactly 1 point, not the 2-element pair the claim requires at the
moment of commit. -/
theorem shape_commit_single_point_counterexample :
    ((handleMouseUp (handleMouseDown lineToolScene ⟨3, 4⟩ "id")).elements.map
        fun e => (e.tool, e.points)) = [(.line, [⟨3, 4⟩])] ∧
    ((handleMouseUp (handleMouseDown lineToolScene ⟨3, 4⟩ "id")).elements.map
        fun e => e.points.length) ≠ [2] := by
  refine ⟨by with_unfolding_all rfl, ?_⟩
  have h : ((handleMouseUp
      (handleMouseDown lineToolScene ⟨3, 4⟩ "id")).elements.map
        fun e => e.points.length) = [1] := by with_unfolding_all rfl
  rw [h]
  simp

/-- C7 (amended): every pointer-down with a drawing tool armed creates an
element holding the single point `[start]`; during an active draw each
pointer-move REPLACES the second point for the line/rectangle/circle
tools — the element becomes exactly `[anchor, current]` with the anchor
preserved — and APPENDS the point for the pencil/eraser tools (so their
points stay nonempty and append-only); pointer-up commits the
in-progress element unchanged, which is why a shape element committed
with no intervening move carries 1 point rather than 2. -/
theorem points_sequence_discipline (s : EditorState) (el : CanvasElement)
    (pos mv : Point) (p0 : Point) (rest : List Point)
    (hact : s.action = .drawing) (hsel : s.selectedElement = some el)
    (hpts : el.points = p0 :: rest) :
    ((el.tool = .line ∨ el.tool = .rectangle ∨ el.tool = .circle) →
      (handleMouseMove s pos mv).selectedElement =
        some { el with points := [p0, pos] }) ∧
    ((el.tool = .pencil ∨ el.tool = .eraser) →
      (handleMouseMove s pos mv).selectedElement =
        some { el with points := el.points ++ [pos] }) ∧
    (handleMouseUp s).elements.getLast? = some el ∧
    (∀ (s' : EditorState) (q : Point) (idN : String),
      s'.activeTool ≠ .move →
      ((handleMouseDown s' q idN).selectedElement.map fun e => e.points) =
        some [q]) := by
  refine ⟨?_, ?_, ?_, ?_⟩
  · intro ht
    have hne : ¬(el.tool = .pencil ∨ el.tool = .eraser) := by
      rcases ht with h | h | h <;> simp [h]
    simp [handleMouseMove, hact, hsel, extendElement, hne, hpts]
  · intro ht
    simp [handleMouseMove, hact, hsel, extendElement, ht]
  · simp [handleMouseUp, hact, hsel]
  · intro s' q idN hmove
    simp [handleMouseDown, hmove]

theorem points_sequence_discipline_witness :
    (handleMouseMove lineDrawScene ⟨1, 2⟩ ⟨0, 0⟩).selectedElement =
      some ⟨"ln", .line, [⟨0, 0⟩, ⟨1, 2⟩], "#000000", 5⟩ ∧
    (handleMouseUp lineDrawScene).elements.getLast? = some lineElement := by
  have h := points_sequence_discipline lineDrawScene lineElement
    ⟨1, 2⟩ ⟨0, 0⟩ ⟨0, 0⟩ [] rfl rfl rfl
  exact ⟨h.1 (Or.inl rfl), h.2.2.1⟩

theorem resizeApply_reject (h : ResizeHandle) (pos : Point)
    (img : PlacedImage)
    (hbad : ¬(10 < (resizeCandidate h pos img).width ∧
              10 < (resizeCandidate h pos img).height)) :
    resizeApply h pos img = img := by
  simp [resizeApply, hbad]

theorem resizeApply_floor (h : ResizeHandle) (pos : Point)
    (img : PlacedImage) (hw : 10 < img.width) (hh : 10 < img.height) :
    10 < (resizeApply h pos img).width ∧
      10 < (resizeApply h pos img).height := by
  by_cases hc : 10 < (resizeCandidate h pos img).width ∧
      10 < (resizeCandidate h pos img).height
  · simp [resizeApply, hc]
  · simp only [resizeApply, hc, if_false]
    exact ⟨hw, hh⟩

theorem resize_session_floor (evs : List (Point × Point)) (s : EditorState)
    (i : Nat) (h : ResizeHandle) (img : PlacedImage)
    (hact : s.action = .resizing) (hsel : s.selectedImageIndex = some i)
    (hrh : s.resizeHandle = some h) (hget : s.placedImages[i]? = some img)
    (hw : 10 < img.width) (hh : 10 < img.height) :
    ∃ img', (mouseMoveSession s evs).placedImages[i]? = some img' ∧
      10 < img'.width ∧ 10 < img'.height := by
  induction evs generalizing s img with
  | nil => exact ⟨img, hget, hw, hh⟩
  | cons ev evs ih =>
    have hstep : handleMouseMove s ev.1 ev.2 =
        { s with
          mousePosition := some ev.1
          placedImages := modifyAt s.placedImages i (resizeApply h ev.1) } := by
      simp [handleMouseMove, hact, hsel, hrh]
    have hsess : mouseMoveSession s (ev :: evs) =
        mouseMoveSession (handleMouseMove s ev.1 ev.2) evs := rfl
    rw [hsess, hstep]
    exact ih _ (resizeApply h ev.1 img) hact hsel hrh
      (modifyAt_getElem? _ _ _ _ hget)
      (resizeApply_floor h ev.1 img hw hh).1
      (resizeApply_floor h ev.1 img hw hh).2

/-- C2: for every sequence of resize pointer-move events applied through
any corner handle to a placed image with `width > 10` and `height > 10`,
the image still satisfies `width > 10 ∧ height > 10` afterwards; and any
single move whose recomputed rectangle would have `width ≤ 10` or
`height ≤ 10` is rejected atomically, leaving the image record — its x,
y, width and height — exactly the previous valid one. -/
theorem resize_floor_invariant (s : EditorState) (i : Nat)
    (h : ResizeHandle) (evs : List (Point × Point)) (img : PlacedImage)
    (hact : s.action = .resizing) (hsel : s.selectedImageIndex = some i)
    (hrh : s.resizeHandle = some h) (hget : s.placedImages[i]? = some img)
    (hw : 10 < img.width) (hh : 10 < img.height) :
    (∃ img', (mouseMoveSession s evs).placedImages[i]? = some img' ∧
      10 < img'.width ∧ 10 < img'.height) ∧
    (∀ (h' : ResizeHandle) (pos : Point) (im : PlacedImage),
      ¬(10 < (resizeCandidate h' pos im).width ∧
        10 < (resizeCandidate h' pos im).height) →
      resizeApply h' pos im = im) :=
  ⟨resize_session_floor evs s i h img hact hsel hrh hget hw hh,
   fun h' pos im hbad => resizeApply_reject h' pos im hbad⟩

theorem resize_floor_invariant_witness :
    (∃ img', (mouseMoveSession resizingScene
        [(⟨300, 300⟩, ⟨0, 0⟩)]).placedImages[0]? = some img' ∧
      10 < img'.width ∧ 10 < img'.height) ∧
    resizeApply .br ⟨55, 55⟩ ⟨"img", fun _ => "#888888", 50, 50, 150, 100⟩ =
      ⟨"img", fun _ => "#888888", 50, 50, 150, 100⟩ := by
  have h := resize_floor_invariant resizingScene 0 .br
    [(⟨300, 300⟩, ⟨0, 0⟩)] ⟨"img", fun _ => "#888888", 50, 50, 150, 100⟩
    rfl rfl rfl (by with_unfolding_all rfl) (by norm_num) (by norm_num)
  refine ⟨h.1, h.2 .br ⟨55, 55⟩ _ ?_⟩
  intro hc
  have : ¬((10 : ℚ) < 5) := by norm_num
  exact this (by
    have hcand : (resizeCandidate .br ⟨55, 55⟩
        ⟨"img", fun _ => "#888888", 50, 50, 150, 100⟩).width = 5 := by
      with_unfolding_all rfl
    rw [hcand] at hc
    exact hc.1)

theorem drag_session_moves (deltas : List Point) (pos : Point)
    (s : EditorState) (img : PlacedImage)
    (hact : s.action = .dragging) (hsel : s.selectedImageIndex = some 0)
    (himgs : s.placedImages = [img]) :
    (mouseMoveSession s (deltas.map fun d => (pos, d))).placedImages =
      [{ img with
          x := img.x + (deltas.map Point.x).sum
          y := img.y + (deltas.map Point.y).sum }] := by
  induction deltas generalizing s img with
  | nil => simpa [mouseMoveSession] using himgs
  | cons d ds ih =>
    have hstep : handleMouseMove s pos d =
        { s with
          mousePosition := some pos
          placedImages := [dragStep d img] } := by
      simp [handleMouseMove, hact, hsel, himgs, modifyAt]
    have hsess : mouseMoveSession s ((d :: ds).map fun d => (pos, d)) =
        mouseMoveSession (handleMouseMove s pos d)
          (ds.map fun d => (pos, d)) := rfl
    rw [hsess, hstep,
      ih { s with mousePosition := some pos,
                  placedImages := [dragStep d img] }
        (dragStep d img) hact hsel rfl]
    simp [dragStep, add_assoc]

/-- C9: adding a furniture image of intrinsic size 300 × 200 places it at
`(50, 50)` with width 150 and height 100 (aspect ratio preserved under
the 150 px max-width constraint); dragging it by incremental pointer
deltas totalling `(20, -10)` moves it to `(70, 40)` with its size
unchanged at `150 × 100`. -/
theorem default_placement_and_drag (s : EditorState)
    (content : Point → String) (idA idB : String)
    (deltas : List Point) (pos : Point)
    (hdx : (deltas.map Point.x).sum = 20)
    (hdy : (deltas.map Point.y).sum = -10) :
    (addImageToCanvas s idA content 300 200).placedImages =
      s.placedImages ++ [⟨idA, content, 50, 50, 150, 100⟩] ∧
    (mouseMoveSession
        { initialState with
          placedImages := [⟨idB, content, 50, 50, 150, 100⟩]
          action := .dragging
          selectedImageIndex := some 0 }
        (deltas.map fun d => (pos, d))).placedImages =
      [⟨idB, content, 70, 40, 150, 100⟩] := by
  constructor
  · simp only [addImageToCanvas]
    norm_num
  · rw [drag_session_moves deltas pos _ ⟨idB, content, 50, 50, 150, 100⟩
      rfl rfl rfl, hdx, hdy]
    norm_num

theorem default_placement_and_drag_witness :
    (addImageToCanvas initialState "a" (fun _ => "#111111") 300 200).placedImages =
      [⟨"a", fun _ => "#111111", 50, 50, 150, 100⟩] ∧
    (mouseMoveSession
        { initialState with
          placedImages := [⟨"b", fun _ => "#111111", 50, 50, 150, 100⟩]
          action := .dragging
          selectedImageIndex := some 0 }
        ([(⟨9, 9⟩, ⟨10, -5⟩), (⟨9, 9⟩, ⟨10, -5⟩)])).placedImages =
      [⟨"b", fun _ => "#111111", 70, 40, 150, 100⟩] := by
  have h := default_placement_and_drag initialState (fun _ => "#111111")
    "a" "b" [⟨10, -5⟩, ⟨10, -5⟩] ⟨9, 9⟩ (by norm_num) (by norm_num)
  exact ⟨by simpa using h.1, h.2⟩

/-- C10: exporting a scene with no placed images, no committed elements,
no in-progress element and no pointer hover succeeds on a mounted
canvas: the result is non-null, the frame is determined by a non-empty
operation list, and every point of the canvas shows exactly the
background fill (or background image) — an empty composition is valid,
not an error. -/
theorem empty_scene_export_succeeds (s : EditorState)
    (h1 : s.placedImages = []) (h2 : s.elements = [])
    (h3 : s.selectedElement = none) (h4 : s.mousePosition = none) :
    getCanvasAsBase64 s true = some (exportOps s) ∧
    getCanvasAsBase64 s true ≠ none ∧
    exportOps s ≠ [] ∧
    (∀ p : Point, inCanvas p →
      renderAt (exportOps s) p = some (bgColorAt s p)) := by
  have hrep : repaintOps s = bgOps s := by
    simp [repaintOps, h1, h2, h3, h4, imagesOps, previewOps]
  refine ⟨rfl, by simp [getCanvasAsBase64], ?_, ?_⟩
  · cases hbg : s.backgroundImage <;> simp [exportOps, bgOps, hbg]
  · intro p hp
    have hcov : fillRectCovers 0 0 canvasW canvasH p := by
      obtain ⟨ha, hb, hc, hd⟩ := hp
      exact ⟨ha, by simpa using hb, hc, by simpa using hd⟩
    rw [exportOps, hrep]
    cases hbg : s.backgroundImage with
    | none =>
        simp [bgOps, hbg, renderAt, opCovers, opColorAt, hcov, bgColorAt]
    | some f =>
        simp [bgOps, hbg, renderAt, opCovers, opColorAt, hcov, bgColorAt]

theorem empty_scene_export_succeeds_witness :
    getCanvasAsBase64 initialState true = some (exportOps initialState) ∧
    renderAt (exportOps initialState) ⟨1, 2⟩ = some "#FFFFFF" := by
  have h := empty_scene_export_succeeds initialState rfl rfl rfl rfl
  refine ⟨h.1, ?_⟩
  have hin : inCanvas (⟨1, 2⟩ : Point) := by
    norm_num [inCanvas, canvasW, canvasH]
  simpa [bgColorAt, initialState] using h.2.2.2 ⟨1, 2⟩ hin

end AiRender
